import Mathlib

/-!
Shallow embedding of the CyberSecBrief triage pipeline
(`src/processor.py`, `src/insights.py`): deduplication, summary
normalization/truncation, region classification, heuristic scoring,
quota-aware selection, and enrichment orchestration.

Python strings are modelled as Lean `String` (a list of code points,
matching Python's code-point semantics for slicing, `in`, `startswith`,
`lower`, `strip`, `split`, `replace`).  Timestamps (`published`,
timezone-aware datetimes in the source) are modelled as `Nat` — only
their total order is used (for sorting).  The external HTML stripper
(BeautifulSoup, behind `clean_html`) and the external text-generation
collaborator (Gemini, behind `_generate_text`) are modelled as function
parameters, their results being arbitrary strings.
-/

namespace CyberSecBrief

/-! ### Python string primitives on code points -/

/-- Python code-point prefix test: `hay.startswith(pat)` holds of the char
lists when `pat` begins `hay`. -/
def strHasPre : List Char → List Char → Bool
  | [], _ => true
  | _ :: _, [] => false
  | p :: ps, c :: cs => p == c && strHasPre ps cs

/-- Python substring containment `pat in hay` on char lists. -/
def containsChars (pat : List Char) : List Char → Bool
  | [] => strHasPre pat []
  | c :: rest => strHasPre pat (c :: rest) || containsChars pat rest

/-- Python `needle in hay` for strings. -/
def pyIn (needle hay : String) : Bool := containsChars needle.data hay.data

/-- Python `s.startswith(pre)`. -/
def pyStarts (s pre : String) : Bool := strHasPre pre.data s.data

/-- Python `s.lower()` (ASCII case folding, as used on the ASCII keyword
lists and feed text). -/
def pyLower (s : String) : String := String.mk (s.data.map Char.toLower)

/-- Python `s.strip()` on char lists: drop leading and trailing
whitespace. -/
def trimChars (l : List Char) : List Char :=
  ((l.dropWhile Char.isWhitespace).reverse.dropWhile Char.isWhitespace).reverse

/-- Python `s.strip()`. -/
def pyTrim (s : String) : String := String.mk (trimChars s.data)

/-- Python `s.split(sep_char)` on char lists (always at least one piece). -/
def splitLines : List Char → List (List Char)
  | [] => [[]]
  | c :: rest =>
    match splitLines rest with
    | [] => [[]]
    | l :: ls => if c == '\n' then [] :: l :: ls else (c :: l) :: ls

/-- The lines of a Python `text.split('\n')`. -/
def pyLines (s : String) : List String := (splitLines s.data).map String.mk

/-- Python `s.replace(pat, '')` on char lists, with a skip counter: while
`k > 0` the char belongs to an occurrence already removed; at `k = 0` an
occurrence of `pat` starting here is removed by skipping its remaining
`pat.length - 1` chars (left-to-right, non-overlapping). -/
def removeAllAux (pat : List Char) : Nat → List Char → List Char
  | _, [] => []
  | k + 1, _ :: rest => removeAllAux pat k rest
  | 0, c :: rest =>
    if pat ≠ [] ∧ strHasPre pat (c :: rest) then
      removeAllAux pat (pat.length - 1) rest
    else
      c :: removeAllAux pat 0 rest

/-- Python `s.replace(pat, '')` on char lists: remove every (non-empty,
non-overlapping, left-to-right) occurrence of `pat`. -/
def removeAll (pat : List Char) (l : List Char) : List Char :=
  removeAllAux pat 0 l

/-- Python `s.replace(pat, '')` for strings. -/
def pyRemove (s pat : String) : String := String.mk (removeAll pat.data s.data)

/-- Python `s.split(sep, 1)` on char lists: `none` when `sep` does not
occur, otherwise the pieces before and after the first occurrence. -/
def splitFirstChars (sep : List Char) : List Char → Option (List Char × List Char)
  | [] => none
  | c :: rest =>
    if strHasPre sep (c :: rest) then some ([], (c :: rest).drop sep.length)
    else
      match splitFirstChars sep rest with
      | none => none
      | some (a, b) => some (c :: a, b)

/-- Python `s.split(sep, 1)` for strings. -/
def pySplitFirst (s sep : String) : Option (String × String) :=
  (splitFirstChars sep.data s.data).map (fun p => (String.mk p.1, String.mk p.2))

/-! ### Data model

A working item: the six collector-produced fields plus the fields the
pipeline adds in place (`clean_summary`, `region`, `score`, and the five
enrichment fields). -/

structure Story where
  title : String
  link : String
  summary : String
  published : Nat
  source : String
  category : String
  clean_summary : String := ""
  region : String := ""
  score : Int := 0
  significance : String := ""
  why_it_matters : String := ""
  who_should_care : String := ""
  action : String := ""
  kenya_context : String := ""
deriving Repr, DecidableEq

/-! ### ContentProcessor keyword tables (`processor.py`, `__init__`) -/

/-- Impact indicators (+15 points, applied once). -/
def impact_keywords : List String :=
  ["exploited in the wild", "active exploitation", "critical vulnerability",
   "zero-day", "cve-", "cvss 9", "cvss 10", "ransomware attack",
   "data breach", "confirmed incident", "patch now", "under attack"]

/-- Priority topics (+5 points each). -/
def priority_topics : List String :=
  ["policy", "regulation", "act", "bill", "sim swap",
   "cyber incident", "compliance", "directive"]

/-- Noise / fluff filters (-50 points). -/
def noise_keywords : List String :=
  ["top 10", "best of", "awards", "ranking", "opinion:", "editorial:",
   "thought leadership", "prediction", "market report", "vendor showcase"]

/-- Politics filter (-50 points unless technical). -/
def politics_keywords : List String :=
  ["politics", "election", "party", "campaign", "vote"]

/-- Technology-context terms that cancel the politics penalty. -/
def tech_context : List String :=
  ["cyber", "tech", "internet", "digital", "audit", "data", "online",
   "social media", "ict"]

/-! ### Region classification (`ContentProcessor._determine_region`) -/

/-- Kenya-specific terms. -/
def kenya_terms : List String :=
  ["kenya", "nairobi", "cak", "communications authority", "odpc", "ruto",
   "ministry of ict", "ke-cirt", "konza", "safaricom", "airtel kenya"]

/-- East-Africa terms. -/
def ea_terms : List String :=
  ["uganda", "tanzania", "rwanda", "east africa", "ethiopia", "somalia",
   "burundi", "drc"]

/-- Allowlist of known Kenya-focused sources. -/
def known_kenya_sources : List String :=
  ["TechWeez", "CIO Africa", "Business Daily (Tech)", "CA Kenya (News)",
   "KE-CIRT (News)", "ODPC Kenya", "Ministry of ICT Kenya"]

/-- The first-return `for` loop over a term list: the label is returned as
soon as some term is a substring of the lowered text. -/
def firstTermHit (tl : String) : List String → Bool
  | [] => false
  | t :: rest => if pyIn t tl then true else firstTermHit tl rest

/-- `ContentProcessor._determine_region`: Kenya terms, then East-Africa
terms, then the Kenya source allowlist, else Global.  (The
`category == 'Regional Focus'` check in the source is a no-op `pass`.) -/
def determine_region (story : Story) (text : String) : String :=
  let text_lower := pyLower text
  if firstTermHit text_lower kenya_terms then "Kenya"
  else if firstTermHit text_lower ea_terms then "East Africa"
  else if known_kenya_sources.contains story.source then "Kenya"
  else "Global"

/-! ### Scoring (`ContentProcessor._calculate_score`) -/

/-- The impact-bonus loop: +15 at the first matching impact keyword, then
`break`. -/
def impactLoop (tl : String) : List String → Int
  | [] => 0
  | kw :: rest => if pyIn kw tl then 15 else impactLoop tl rest

/-- The topic-bonus loop: +5 for every priority topic present (no break). -/
def topicLoop (tl : String) : List String → Int
  | [] => 0
  | pt :: rest => (if pyIn pt tl then 5 else 0) + topicLoop tl rest

/-- `ContentProcessor._calculate_score`: region base, impact bonus
(capped at one), per-topic bonus, noise penalty, and politics penalty
(waived under technology context). -/
def calculate_score (text : String) (region : String) : Int :=
  let text_lower := pyLower text
  let base : Int := if region = "Kenya" then 5 else if region = "East Africa" then 3 else 0
  let score1 := base + impactLoop text_lower impact_keywords
  let score2 := score1 + topicLoop text_lower priority_topics
  let is_political := politics_keywords.any (fun pk => pyIn pk text_lower)
  let has_tech_context := tech_context.any (fun tc => pyIn tc text_lower)
  let is_noise := noise_keywords.any (fun nk => pyIn nk text_lower)
  let score3 := if is_noise then score2 - 50 else score2
  if is_political && !has_tech_context then score3 - 50 else score3

/-! ### Summary normalization and truncation (`process`, step 1) -/

/-- The truncation applied to a cleaned summary (`process`, lines
119–120): texts longer than 400 code points are cut to their first 397
code points plus `"..."` (Python slicing is by code point). -/
def truncate400 (s : String) : String :=
  if s.length > 400 then String.mk (s.data.take 397) ++ "..." else s

/-- The working item stored at an unseen link: the raw story with its
`clean_summary` set from the (externally) markup-stripped summary. -/
def cleanOf (stripHtml : String → String) (s : Story) : Story :=
  { s with clean_summary := truncate400 (stripHtml s.summary) }

/-! ### Deduplication (`process`, step 1)

`unique_stories` is a dict keyed by `link` (insertion ordered); an
incoming story whose link was already seen is discarded unconditionally. -/

/-- The dedup loop, carrying the set of links seen so far. -/
def dedupAux (stripHtml : String → String) : List Story → List String → List Story
  | [], _ => []
  | s :: rest, seen =>
    if s.link ∈ seen then dedupAux stripHtml rest seen
    else cleanOf stripHtml s :: dedupAux stripHtml rest (s.link :: seen)

/-- Global deduplication by link, first occurrence wins. -/
def dedup (stripHtml : String → String) (raw : List Story) : List Story :=
  dedupAux stripHtml raw []

/-! ### Scoring and threshold (`process`, step 2) -/

/-- Step 2 per-story annotation: combined text, region, score. -/
def tagStory (s : Story) : Story :=
  let full_text := s.title ++ " " ++ s.clean_summary
  let region := determine_region s full_text
  { s with region := region, score := calculate_score full_text region }

/-- Step 2: annotate every unique story and keep those with
`score > -10`. -/
def scoreFilter (unique : List Story) : List Story :=
  (unique.map tagStory).filter (fun s => -10 < s.score)

/-! ### Sort and selection (`process`, steps 3–4) -/

/-- The comparison realizing Python's
`sort(key=(score, published), reverse=True)`: `a` may precede `b` iff
`a`'s key (score, published) is lexicographically ≥ `b`'s. -/
def storyKeyGe (a b : Story) : Prop :=
  b.score < a.score ∨ (a.score = b.score ∧ b.published ≤ a.published)

instance : DecidableRel storyKeyGe := fun a b => by
  unfold storyKeyGe
  infer_instance

/-- Step 3: sort survivors by score descending then published descending.
Python `list.sort` is a stable sort on the two-part key; a stable sort
with a fixed total preorder is extensionally unique, so it is modelled by
the stable `List.insertionSort`. -/
def sortStories (l : List Story) : List Story := l.insertionSort storyKeyGe

/-- The category capped at one selection. -/
def academicCat : String := "Academic Research & Papers"

/-- The category capped at two selections. -/
def emergingCat : String := "Emerging Technologies"

/-- Step 4 selection loop over the sorted survivors: `n` stories selected
so far (hard cap 8), `ac` academic selections so far (cap 1), `em`
emerging-tech selections so far (cap 2); capped categories are skipped
without stopping the scan. -/
def selectLoop : List Story → Nat → Nat → Nat → List Story
  | [], _, _, _ => []
  | s :: rest, n, ac, em =>
    if 8 ≤ n then []
    else if s.category = academicCat ∧ 1 ≤ ac then selectLoop rest n ac em
    else if s.category = emergingCat ∧ 2 ≤ em then selectLoop rest n ac em
    else
      s :: selectLoop rest (n + 1)
        (if s.category = academicCat then ac + 1 else ac)
        (if s.category = emergingCat then em + 1 else em)

/-- Steps 1–4 of `ContentProcessor.process`: the final selection before
enrichment. -/
def selectionOf (stripHtml : String → String) (raw : List Story) : List Story :=
  selectLoop (sortStories (scoreFilter (dedup stripHtml raw))) 0 0 0

/-! ### InsightGenerator (`insights.py`)

The generator is either disabled (no API key, or initialization failed)
or enabled with an external oracle for `model.generate_content`; an
oracle result of `Except.error` models the call raising an exception. -/

inductive Gen where
  | disabled : Gen
  | enabled : (String → Except Unit String) → Gen

/-- `InsightGenerator._generate_text`: empty when disabled; otherwise the
trimmed oracle response, with any exception caught and turned into the
empty string. -/
def generate_text (g : Gen) (prompt : String) : String :=
  match g with
  | Gen.disabled => ""
  | Gen.enabled oracle =>
    match oracle prompt with
    | Except.error _ => ""
    | Except.ok t => pyTrim t

/-- The conditional Kenya-context instruction of `analyze_story`. -/
def kenyaInstruction (region : String) : String :=
  if region = "Kenya" then
    "Task 5: Write a 'Kenya Context' section (1 sentence). Explicitly relate this to Kenya's national policy, local infrastructure, data protection laws (ODPC), or public sector systems."
  else ""

/-- The per-story analysis prompt of `analyze_story` (f-string, lines
51–73 of `insights.py`). -/
def buildPrompt (story : Story) (region : String) : String :=
  "\nAnalyze this cybersecurity news item:" ++
  "\nTitle: " ++ story.title ++
  "\nSummary: " ++ story.clean_summary ++
  "\nCategory: " ++ story.category ++
  "\nRegion: " ++ region ++
  "\n\nPerform the following intelligence tasks:" ++
  "\nTask 1: Assign a 'Significance Level' (Low / Medium / High / Critical)." ++
  "\nTask 2: Write a 'Why This Matters' analysis (1 sentence). Explain the real-world impact." ++
  "\nTask 3: Identify 'Who Should Care' (comma-separated list, e.g., ISPs, Banks, SMEs, Regulators)." ++
  "\nTask 4: Recommend a 'Practical Action' (1 short sentence). Practical guidance for the target audience." ++
  "\n" ++ kenyaInstruction region ++
  "\n\nConstraint: If Category is 'Academic Research & Papers', ensure the 'Practical Action' is a concrete takeaway, not abstract theory." ++
  "\n\nOutput format:" ++
  "\nSignificance: [Level]" ++
  "\nWhy: [Text]" ++
  "\nWho: [List]" ++
  "\nAction: [Text]" ++
  "\nContext: [Text (only if requested)]\n"

/-- The per-story analysis record, with the defaults `analyze_story`
initializes before parsing. -/
structure Analysis where
  significance : String := "Medium"
  why_it_matters : String := ""
  who_should_care : String := ""
  action : String := ""
  kenya_context : String := ""
deriving Repr, DecidableEq

/-- One step of the `analyze_story` parsing loop: strip the line and, on a
recognized label, overwrite that field with the label removed and the
remainder stripped. -/
def parseLine (r : Analysis) (raw : String) : Analysis :=
  let line := pyTrim raw
  if pyStarts line "Significance:" then
    { r with significance := pyTrim (pyRemove line "Significance:") }
  else if pyStarts line "Why:" then
    { r with why_it_matters := pyTrim (pyRemove line "Why:") }
  else if pyStarts line "Who:" then
    { r with who_should_care := pyTrim (pyRemove line "Who:") }
  else if pyStarts line "Action:" then
    { r with action := pyTrim (pyRemove line "Action:") }
  else if pyStarts line "Context:" then
    { r with kenya_context := pyTrim (pyRemove line "Context:") }
  else r

/-- The `analyze_story` response parser: fold `parseLine` over the
response's lines, starting from the defaults. -/
def parseAnalysis (response_text : String) : Analysis :=
  (pyLines response_text).foldl parseLine {}

/-- `InsightGenerator.analyze_story`: `none` models the empty dict
returned when the generator is disabled; otherwise the parsed analysis of
the collaborator's response to the built prompt. -/
def analyze_story (g : Gen) (story : Story) (region : String) : Option Analysis :=
  match g with
  | Gen.disabled => none
  | Gen.enabled _ => some (parseAnalysis (generate_text g (buildPrompt story region)))

/-- Step 5 of `process` for one selected story: store the analysis fields
on the story, with `analysis.get` defaults for the disabled (empty-dict)
case. -/
def enrichStory (g : Gen) (s : Story) : Story :=
  let analysis := analyze_story g s s.region
  match analysis with
  | none =>
    { s with significance := "Medium", why_it_matters := "", who_should_care := "",
             action := "", kenya_context := "" }
  | some a =>
    { s with significance := a.significance, why_it_matters := a.why_it_matters,
             who_should_care := a.who_should_care, action := a.action,
             kenya_context := a.kenya_context }

/-- One batch-level signal. -/
structure Signal where
  title : String
  description : String
deriving Repr, DecidableEq

/-- The batch-level insight record. -/
structure BriefingInsights where
  executive_summary : String
  signals : List Signal
deriving Repr, DecidableEq

/-- The condensed context of `generate_briefing_insight`: a
`Category:` line per non-empty category followed by one `- title` line
per story. -/
def contextLines (all_stories : List (String × List Story)) : List String :=
  all_stories.foldl (fun acc p =>
    if p.2.isEmpty then acc
    else acc ++ ("Category: " ++ p.1) :: p.2.map (fun s => "- " ++ s.title)) []

/-- The batch-level prompt of `generate_briefing_insight`. -/
def briefPrompt (all_stories : List (String × List Story)) : String :=
  "\nBased on the following cybersecurity news briefing digest:\n" ++
  String.intercalate "\n" (contextLines all_stories) ++
  "\n\nTask 1: Write an 'Executive Insight Summary' (approx 150-200 words). Highlight key emerging themes, repeated threat patterns, or notable shifts." ++
  "\nTask 2: Identify 3 distinct 'Signals & Patterns' (cross-category trends). For each, provide a short Title and Description." ++
  "\n\nOutput format:" ++
  "\nSUMMARY:" ++
  "\n[Summary text]" ++
  "\n\nSIGNAL 1: [Title] - [Description]" ++
  "\nSIGNAL 2: [Title] - [Description]" ++
  "\nSIGNAL 3: [Title] - [Description]\n"

/-- The parser's section marker: no section yet, inside the summary
block, or past a signal line. -/
inductive BSection where
  | noneSec : BSection
  | summarySec : BSection
  | signalSec : BSection
deriving Repr, DecidableEq

/-- The state of the `generate_briefing_insight` parsing loop. -/
structure BState where
  sec : BSection
  summary_lines : List String
  signals : List Signal
deriving Repr, DecidableEq

/-- One step of the batch-level parsing loop: blank lines are skipped, a
`SUMMARY:` line opens the summary section, a `SIGNAL` line enters the
signal section and (when it has a colon) appends one signal — split on
the first `" - "` into title and description, or a `Trend` placeholder
title — and any other line is appended to the summary when the summary
section is open. -/
def briefStep (st : BState) (raw : String) : BState :=
  let line := pyTrim raw
  if line = "" then st
  else if pyStarts line "SUMMARY:" then { st with sec := BSection.summarySec }
  else if pyStarts line "SIGNAL" then
    let st1 : BState := { st with sec := BSection.signalSec }
    match pySplitFirst line ":" with
    | none => st1
    | some (_, rest) =>
      let content := pyTrim rest
      if pyIn " - " content then
        match pySplitFirst content " - " with
        | none => st1
        | some (t, d) =>
          { st1 with signals := st1.signals ++ [{ title := t, description := d }] }
      else
        { st1 with signals := st1.signals ++ [{ title := "Trend", description := content }] }
  else if st.sec = BSection.summarySec then
    { st with summary_lines := st.summary_lines ++ [line] }
  else st

/-- The batch-level response parser of `generate_briefing_insight`. -/
def parseBriefing (response_text : String) : BriefingInsights :=
  let final := (pyLines response_text).foldl briefStep
    { sec := BSection.noneSec, summary_lines := [], signals := [] }
  { executive_summary := String.intercalate " " final.summary_lines,
    signals := final.signals }

/-- `InsightGenerator.generate_briefing_insight`: empty summary and
signals when disabled, otherwise the parsed response to the batch
prompt. -/
def generate_briefing_insight (g : Gen) (all_stories : List (String × List Story)) :
    BriefingInsights :=
  match g with
  | Gen.disabled => { executive_summary := "", signals := [] }
  | Gen.enabled _ => parseBriefing (generate_text g (briefPrompt all_stories))

/-- `ContentProcessor.process`: steps 1–4 (`selectionOf`), then per-story
enrichment in place, then the batch-level insight over the selection. -/
def process (stripHtml : String → String) (g : Gen) (raw_stories : List Story) :
    List Story × BriefingInsights :=
  let final := (selectionOf stripHtml raw_stories).map (enrichStory g)
  (final, generate_briefing_insight g [("Top Stories", final)])

/-! ### Spec-style mirror definitions (for the refinement claims) -/

/-- The score as the spec words it: region base, plus an at-most-once
impact bonus of 15 when some high-impact term occurs, plus 5 for each
distinct matching priority topic, minus 50 when some noise term occurs,
minus 50 when some politics term occurs without any technology-context
term — all substring tests on the lowercased text. -/
def specScore (text region : String) : Int :=
  let tl := pyLower text
  (if region = "Kenya" then 5 else if region = "East Africa" then 3 else 0)
    + (if impact_keywords.any (fun kw => pyIn kw tl) then 15 else 0)
    + 5 * ((priority_topics.filter (fun pt => pyIn pt tl)).length : Int)
    - (if noise_keywords.any (fun nk => pyIn nk tl) then 50 else 0)
    - (if politics_keywords.any (fun pk => pyIn pk tl)
          ∧ ¬ tech_context.any (fun tc => pyIn tc tl) then 50 else 0)

/-- The region label as the spec words its precedence: Kenya on any Kenya
term, else East Africa on any East-Africa term, else Kenya for an
allowlisted source, else Global. -/
def specRegion (story : Story) (text : String) : String :=
  let tl := pyLower text
  if kenya_terms.any (fun t => pyIn t tl) then "Kenya"
  else if ea_terms.any (fun t => pyIn t tl) then "East Africa"
  else if known_kenya_sources.contains story.source then "Kenya"
  else "Global"

/-- The signal contributed by one response line, as the spec words it: a
stripped non-blank line starting with SIGNAL and containing a colon
yields one signal — the text after the first colon, split on the first
" - " into title and description, or a Trend placeholder title with the
whole remainder as description. -/
def signalOfLine (raw : String) : Option Signal :=
  let line := pyTrim raw
  if line = "" then none
  else if pyStarts line "SUMMARY:" then none
  else if pyStarts line "SIGNAL" then
    match pySplitFirst line ":" with
    | none => none
    | some (_, rest) =>
      let content := pyTrim rest
      if pyIn " - " content then
        (pySplitFirst content " - ").map (fun p => { title := p.1, description := p.2 })
      else some { title := "Trend", description := content }
  else none

/-- The summary block, as the spec words it: the stripped non-blank
non-label lines that follow a SUMMARY: label, up to the next label
(collection resumes after a later SUMMARY: label). -/
def summaryLinesSpec : Bool → List String → List String
  | _, [] => []
  | inSummary, raw :: rest =>
    let line := pyTrim raw
    if line = "" then summaryLinesSpec inSummary rest
    else if pyStarts line "SUMMARY:" then summaryLinesSpec true rest
    else if pyStarts line "SIGNAL" then summaryLinesSpec false rest
    else if inSummary then line :: summaryLinesSpec true rest
    else summaryLinesSpec false rest

/-! ### Order instances for the sort key -/

instance : IsTotal Story storyKeyGe := by
  constructor
  intro a b
  unfold storyKeyGe
  omega

instance : IsTrans Story storyKeyGe := by
  constructor
  intro a b c hab hbc
  unfold storyKeyGe at *
  omega

/-! ### Concrete items used in the closed parts of the theorems -/

/-- An item whose text contains "ransomware attack" and "kenya" and no
topic, noise or politics term. -/
def stRansom : Story :=
  { title := "Ransomware attack in Kenya", link := "r1", summary := "",
    published := 0, source := "Feed", category := "News" }

/-- The same text with "election" added and no technology-context term. -/
def stElect : Story :=
  { title := "Ransomware attack in Kenya election", link := "r2", summary := "",
    published := 0, source := "Feed", category := "News" }

/-- A 401-code-point string, above the truncation bound. -/
def longString : String := String.mk (List.replicate 401 'a')

/-- A small item used to instantiate pipeline facts. -/
def stPlain : Story :=
  { title := "t", link := "l", summary := "hello", published := 0,
    source := "s", category := "c" }

/-- A selected item whose region is not Kenya. -/
def stGlobal : Story :=
  { title := "t", link := "l", summary := "", published := 0,
    source := "s", category := "c", clean_summary := "", region := "Global" }

/-- A collaborator whose response carries a Context: line. -/
def ctxOracle : String → Except Unit String :=
  fun _ => Except.ok "Context: Digital ID rollout"

/-- A collaborator response with four SIGNAL lines. -/
def fourSignalResp : String :=
  "SUMMARY:\nKey themes.\nSIGNAL 1: A - B\nSIGNAL 2: C - D\nSIGNAL 3: E - F\nSIGNAL 4: G - H"

/-! ### Helper lemmas -/

theorem firstTermHit_eq_any (tl : String) (l : List String) :
    firstTermHit tl l = l.any (fun t => pyIn t tl) := by
  induction l with
  | nil => rfl
  | cons t rest ih =>
    simp only [firstTermHit, List.any_cons]
    by_cases h : pyIn t tl = true
    · simp [h]
    · simp only [Bool.not_eq_true] at h
      simp [h, ih]

theorem impactLoop_eq_any (tl : String) (l : List String) :
    impactLoop tl l = if l.any (fun kw => pyIn kw tl) then 15 else 0 := by
  induction l with
  | nil => rfl
  | cons kw rest ih =>
    simp only [impactLoop, List.any_cons]
    by_cases h : pyIn kw tl = true
    · simp [h]
    · simp only [Bool.not_eq_true] at h
      simp [h, ih]

theorem topicLoop_eq_count (tl : String) (l : List String) :
    topicLoop tl l = 5 * ((l.filter (fun pt => pyIn pt tl)).length : Int) := by
  induction l with
  | nil => rfl
  | cons pt rest ih =>
    simp only [topicLoop, List.filter_cons]
    by_cases h : pyIn pt tl = true
    · simp only [h, if_true, ih, List.length_cons]
      push_cast
      ring
    · simp only [Bool.not_eq_true] at h
      simp [h, ih]

/-- C1: for every (item text, region) pair, `_calculate_score` returns
exactly the sum of the independent contributions on the lowercased text —
region base (+5 Kenya, +3 East Africa, +0 Global), an at-most-once +15
impact bonus, +5 per distinct matching priority topic, −50 at most once
for noise, and −50 at most once for politics without technology context;
in particular a text with both a noise term and a politics term and no
technology-context term loses 100 from the two penalties together. -/
theorem score_is_sum_of_contributions :
    (∀ text region, calculate_score text region = specScore text region) ∧
    calculate_score "Top 10 election moments" "Global" = -100 := by
  constructor
  · intro text region
    unfold calculate_score specScore
    simp only [impactLoop_eq_any, topicLoop_eq_count]
    by_cases hpol : politics_keywords.any (fun pk => pyIn pk (pyLower text)) = true <;>
      by_cases htech : tech_context.any (fun tc => pyIn tc (pyLower text)) = true <;>
        by_cases hnoise : noise_keywords.any (fun nk => pyIn nk (pyLower text)) = true <;>
          simp [hpol, htech, hnoise]
  · decide

/-- C4: for every combined text and source, `_determine_region` follows
the spec's precedence exactly — Kenya terms first, then East-Africa
terms, then the Kenya source allowlist, else Global; in particular both a
Kenya and an East-Africa term give Kenya, an allowlisted source with no
terms gives Kenya, and no terms with an unlisted source give Global. -/
theorem region_precedence :
    (∀ story text, determine_region story text = specRegion story text) ∧
    determine_region
      { title := "", link := "", summary := "", published := 0,
        source := "y", category := "" } "Uganda and Kenya updates" = "Kenya" ∧
    determine_region
      { title := "", link := "", summary := "", published := 0,
        source := "TechWeez", category := "" } "hello world" = "Kenya" ∧
    determine_region
      { title := "", link := "", summary := "", published := 0,
        source := "Some Feed", category := "" } "hello world" = "Global" := by
  refine ⟨fun story text => ?_, by decide, by decide, by decide⟩
  unfold determine_region specRegion
  simp only [firstTermHit_eq_any]

theorem cleanOf_link (f : String → String) (s : Story) : (cleanOf f s).link = s.link := rfl

theorem cleanOf_idem (f : String → String) (s : Story) :
    cleanOf f (cleanOf f s) = cleanOf f s := rfl

theorem dedupAux_links_sublist (f : String → String) :
    ∀ (raw : List Story) (seen : List String),
      ((dedupAux f raw seen).map Story.link).Sublist (raw.map Story.link) := by
  intro raw
  induction raw with
  | nil => intro seen; simp [dedupAux]
  | cons s rest ih =>
    intro seen
    simp only [dedupAux]
    by_cases h : s.link ∈ seen
    · rw [if_pos h]
      exact (ih seen).trans (List.sublist_cons_self _ _)
    · rw [if_neg h]
      simp only [List.map_cons]
      exact (ih (s.link :: seen)).cons₂ s.link

theorem mem_dedupAux (f : String → String) :
    ∀ (raw : List Story) (seen : List String) (u : Story), u ∈ dedupAux f raw seen →
      u.link ∉ seen ∧
      ∃ r, raw.find? (fun x => x.link == u.link) = some r ∧ u = cleanOf f r := by
  intro raw
  induction raw with
  | nil => intro seen u hu; simp [dedupAux] at hu
  | cons s rest ih =>
    intro seen u hu
    simp only [dedupAux] at hu
    by_cases h : s.link ∈ seen
    · rw [if_pos h] at hu
      obtain ⟨hseen, r, hfind, hr⟩ := ih seen u hu
      refine ⟨hseen, r, ?_, hr⟩
      rw [List.find?_cons_of_neg]
      · exact hfind
      · intro hlink
        rw [beq_iff_eq] at hlink
        exact hseen (hlink ▸ h)
    · rw [if_neg h] at hu
      rcases List.mem_cons.mp hu with hu | hu
      · subst hu
        refine ⟨h, s, ?_, rfl⟩
        rw [List.find?_cons_of_pos]
        simp [cleanOf_link]
      · obtain ⟨hseen, r, hfind, hr⟩ := ih (s.link :: seen) u hu
        rw [List.mem_cons] at hseen
        push_neg at hseen
        refine ⟨hseen.2, r, ?_, hr⟩
        rw [List.find?_cons_of_neg]
        · exact hfind
        · intro hlink
          rw [beq_iff_eq] at hlink
          exact hseen.1 hlink.symm

theorem dedupAux_links_nodup (f : String → String) :
    ∀ (raw : List Story) (seen : List String),
      ((dedupAux f raw seen).map Story.link).Nodup := by
  intro raw
  induction raw with
  | nil => intro seen; simp [dedupAux]
  | cons s rest ih =>
    intro seen
    simp only [dedupAux]
    by_cases h : s.link ∈ seen
    · rw [if_pos h]
      exact ih seen
    · rw [if_neg h]
      simp only [List.map_cons, List.nodup_cons]
      refine ⟨?_, ih (s.link :: seen)⟩
      intro hmem
      obtain ⟨u, hu, hlink⟩ := List.mem_map.mp hmem
      obtain ⟨hseen, _⟩ := mem_dedupAux f rest (s.link :: seen) u hu
      exact hseen (by rw [hlink]; exact List.mem_cons_self _ _)

theorem dedupAux_covers (f : String → String) :
    ∀ (raw : List Story) (seen : List String) (r : Story), r ∈ raw →
      r.link ∈ seen ∨ ∃ u ∈ dedupAux f raw seen, u.link = r.link := by
  intro raw
  induction raw with
  | nil => intro seen r hr; simp at hr
  | cons s rest ih =>
    intro seen r hr
    simp only [dedupAux]
    by_cases h : s.link ∈ seen
    · rw [if_pos h]
      rcases List.mem_cons.mp hr with hr | hr
      · exact Or.inl (hr ▸ h)
      · exact ih seen r hr
    · rw [if_neg h]
      rcases List.mem_cons.mp hr with hr | hr
      · subst hr
        exact Or.inr ⟨cleanOf f r, List.mem_cons_self _ _, rfl⟩
      · rcases ih (s.link :: seen) r hr with hseen | ⟨u, hu, hlink⟩
        · rcases List.mem_cons.mp hseen with heq | hseen
          · exact Or.inr ⟨cleanOf f s, List.mem_cons_self _ _, heq.symm⟩
          · exact Or.inl hseen
        · exact Or.inr ⟨u, List.mem_cons_of_mem _ hu, hlink⟩

theorem dedupAux_id_on (f : String → String) :
    ∀ (l : List Story) (seen : List String),
      (∀ u ∈ l, u.link ∉ seen) →
      (∀ u ∈ l, cleanOf f u = u) →
      ((l.map Story.link).Nodup) →
      dedupAux f l seen = l := by
  intro l
  induction l with
  | nil => intro seen _ _ _; rfl
  | cons u rest ih =>
    intro seen hseen hfix hnodup
    simp only [List.map_cons, List.nodup_cons] at hnodup
    simp only [dedupAux]
    rw [if_neg (hseen u (List.mem_cons_self _ _))]
    rw [hfix u (List.mem_cons_self _ _)]
    congr 1
    refine ih (u.link :: seen) ?_ (fun v hv => hfix v (List.mem_cons_of_mem _ hv)) hnodup.2
    intro v hv hmem
    rcases List.mem_cons.mp hmem with heq | hmem
    · exact hnodup.1 (List.mem_map.mpr ⟨v, hv, heq⟩)
    · exact hseen v (List.mem_cons_of_mem _ hv) hmem

theorem dedup_idem (f : String → String) (raw : List Story) :
    dedup f (dedup f raw) = dedup f raw := by
  refine dedupAux_id_on f (dedup f raw) [] (fun u _ => List.not_mem_nil _) ?_
    (dedupAux_links_nodup f raw [])
  intro u hu
  obtain ⟨_, r, _, hr⟩ := mem_dedupAux f raw [] u hu
  rw [hr]
  exact cleanOf_idem f r

theorem dedup_length_le_distinct (f : String → String) (raw : List Story) :
    (dedup f raw).length ≤ ((raw.map Story.link).dedup).length := by
  unfold dedup
  have hnodup := dedupAux_links_nodup f raw []
  have hsub := dedupAux_links_sublist f raw []
  rw [show (dedupAux f raw []).length = ((dedupAux f raw []).map Story.link).length from
      (List.length_map _ _).symm,
    ← List.toFinset_card_of_nodup hnodup, ← List.card_toFinset]
  apply Finset.card_le_card
  intro a ha
  rw [List.mem_toFinset] at ha ⊢
  exact hsub.subset ha

/-- C5: deduplication keeps exactly one working item per distinct link —
the first-seen one, built from the first raw record with that link and
discarded-duplicate-free — preserves first-seen order, has size at most
the number of distinct links, and is idempotent. -/
theorem dedup_first_seen_idempotent :
    ∀ (f : String → String) (raw : List Story),
      dedup f (dedup f raw) = dedup f raw ∧
      (dedup f raw).length ≤ ((raw.map Story.link).dedup).length ∧
      (∀ u ∈ dedup f raw,
        ∃ r, raw.find? (fun x => x.link == u.link) = some r ∧ u = cleanOf f r) ∧
      ((dedup f raw).map Story.link).Nodup ∧
      ((dedup f raw).map Story.link).Sublist (raw.map Story.link) ∧
      ∀ r ∈ raw, ∃ u ∈ dedup f raw, u.link = r.link := by
  intro f raw
  refine ⟨dedup_idem f raw, dedup_length_le_distinct f raw, ?_,
    dedupAux_links_nodup f raw [], dedupAux_links_sublist f raw [], ?_⟩
  · intro u hu
    exact (mem_dedupAux f raw [] u hu).2
  · intro r hr
    rcases dedupAux_covers f raw [] r hr with hseen | h
    · exact absurd hseen (List.not_mem_nil _)
    · exact h

/-- C6: for every (externally stripped) summary text, the stored
`clean_summary` is the text itself when its length is at most 400, and
its first 397 code points followed by "..." when longer; its length never
exceeds 400 plus the ellipsis length, and every deduplicated item carries
exactly this truncation of its stripped summary. -/
theorem clean_summary_truncation :
    ∀ cleaned : String,
      (cleaned.length ≤ 400 → truncate400 cleaned = cleaned) ∧
      (400 < cleaned.length →
        truncate400 cleaned = String.mk (cleaned.data.take 397) ++ "...") ∧
      (truncate400 cleaned).length ≤ 400 + ("..." : String).length ∧
      (∀ (f : String → String) (raw : List Story), ∀ s ∈ dedup f raw,
        s.clean_summary = truncate400 (f s.summary)) := by
  intro cleaned
  refine ⟨?_, ?_, ?_, ?_⟩
  · intro h
    unfold truncate400
    rw [if_neg (by omega)]
  · intro h
    unfold truncate400
    rw [if_pos (by omega)]
  · unfold truncate400
    have h3 : ("..." : String).length = 3 := rfl
    by_cases h : cleaned.length > 400
    · rw [if_pos h, String.length_append]
      have h2 : (String.mk (cleaned.data.take 397)).length = min 397 cleaned.data.length :=
        List.length_take _ _
      have hd : cleaned.data.length = cleaned.length := rfl
      rw [h2, hd, min_eq_left (by omega), h3]
      omega
    · rw [if_neg h, h3]
      omega
  · intro f raw s hs
    obtain ⟨_, r, _, hr⟩ := mem_dedupAux f raw [] s hs
    rw [hr]
    rfl

/-- Closed instantiation of the truncation theorem: the short branch, the
long branch, and the dedup conjunct on a one-item batch. -/
theorem clean_summary_truncation_witness :
    truncate400 "abc" = "abc" ∧
    truncate400 longString = String.mk (longString.data.take 397) ++ "..." ∧
    (cleanOf (fun s => s) stPlain).clean_summary =
      truncate400 ((fun s : String => s) (cleanOf (fun s => s) stPlain).summary) :=
  ⟨(clean_summary_truncation "abc").1 (by decide),
   (clean_summary_truncation longString).2.1 (by
      show (400 : Nat) < (List.replicate 401 'a').length
      rw [List.length_replicate]
      omega),
   (clean_summary_truncation "").2.2.2 (fun s => s) [stPlain]
     (cleanOf (fun s => s) stPlain) (by decide)⟩

theorem tagStory_fields (s : Story) :
    (tagStory s).title = s.title ∧ (tagStory s).link = s.link ∧
    (tagStory s).summary = s.summary ∧ (tagStory s).published = s.published ∧
    (tagStory s).source = s.source ∧ (tagStory s).category = s.category ∧
    (tagStory s).clean_summary = s.clean_summary :=
  ⟨rfl, rfl, rfl, rfl, rfl, rfl, rfl⟩

theorem enrichStory_fields (g : Gen) (s : Story) :
    (enrichStory g s).title = s.title ∧ (enrichStory g s).link = s.link ∧
    (enrichStory g s).summary = s.summary ∧ (enrichStory g s).published = s.published ∧
    (enrichStory g s).source = s.source ∧ (enrichStory g s).category = s.category ∧
    (enrichStory g s).clean_summary = s.clean_summary ∧
    (enrichStory g s).region = s.region ∧ (enrichStory g s).score = s.score := by
  cases g with
  | disabled => exact ⟨rfl, rfl, rfl, rfl, rfl, rfl, rfl, rfl, rfl⟩
  | enabled oracle => exact ⟨rfl, rfl, rfl, rfl, rfl, rfl, rfl, rfl, rfl⟩

theorem selectLoop_sublist :
    ∀ (l : List Story) (n ac em : Nat), (selectLoop l n ac em).Sublist l := by
  intro l
  induction l with
  | nil => intro n ac em; exact List.Sublist.refl _
  | cons s rest ih =>
    intro n ac em
    simp only [selectLoop]
    split
    · exact List.nil_sublist _
    · split
      · exact (ih n ac em).trans (List.sublist_cons_self _ _)
      · split
        · exact (ih n ac em).trans (List.sublist_cons_self _ _)
        · exact (ih _ _ _).cons₂ s

theorem selectLoop_length :
    ∀ (l : List Story) (n ac em : Nat), (selectLoop l n ac em).length ≤ 8 - n := by
  intro l
  induction l with
  | nil => intro n ac em; simp [selectLoop]
  | cons s rest ih =>
    intro n ac em
    simp only [selectLoop]
    split
    · simp
    · split
      · exact ih n ac em
      · split
        · exact ih n ac em
        · rename_i h8 _ _
          simp only [List.length_cons]
          have := ih (n + 1) (if s.category = academicCat then ac + 1 else ac)
            (if s.category = emergingCat then em + 1 else em)
          omega

theorem selectLoop_academic :
    ∀ (l : List Story) (n ac em : Nat),
      (selectLoop l n ac em).countP (fun s => s.category == academicCat) ≤ 1 - ac := by
  intro l
  induction l with
  | nil => intro n ac em; simp [selectLoop]
  | cons s rest ih =>
    intro n ac em
    simp only [selectLoop]
    split
    · simp
    · split
      · exact ih n ac em
      · split
        · exact ih n ac em
        · rename_i h8 hnoAc hnoEm
          rw [List.countP_cons]
          by_cases hcat : s.category = academicCat
          · have hac : ac = 0 := by
              rcases Nat.eq_zero_or_pos ac with h | h
              · exact h
              · exact absurd ⟨hcat, h⟩ hnoAc
            have hne : s.category ≠ emergingCat := by rw [hcat]; decide
            rw [if_pos hcat, if_neg hne]
            have hrec := ih (n + 1) (ac + 1) em
            have hbeq : (s.category == academicCat) = true := beq_iff_eq.mpr hcat
            rw [if_pos hbeq]
            omega
          · rw [if_neg hcat]
            have hrec := ih (n + 1) ac (if s.category = emergingCat then em + 1 else em)
            have hbeq : ¬ ((s.category == academicCat) = true) := by
              simp [beq_iff_eq, hcat]
            rw [if_neg hbeq]
            omega

theorem selectLoop_emerging :
    ∀ (l : List Story) (n ac em : Nat),
      (selectLoop l n ac em).countP (fun s => s.category == emergingCat) ≤ 2 - em := by
  intro l
  induction l with
  | nil => intro n ac em; simp [selectLoop]
  | cons s rest ih =>
    intro n ac em
    simp only [selectLoop]
    split
    · simp
    · split
      · exact ih n ac em
      · split
        · exact ih n ac em
        · rename_i h8 hnoAc hnoEm
          rw [List.countP_cons]
          by_cases hcat : s.category = emergingCat
          · have hem : em ≤ 1 := by
              rcases Nat.lt_or_ge em 2 with h | h
              · omega
              · exact absurd ⟨hcat, h⟩ hnoEm
            have hne : s.category ≠ academicCat := by rw [hcat]; decide
            rw [if_neg hne, if_pos hcat]
            have hrec := ih (n + 1) ac (em + 1)
            have hbeq : (s.category == emergingCat) = true := beq_iff_eq.mpr hcat
            rw [if_pos hbeq]
            omega
          · rw [if_neg hcat]
            have hrec := ih (n + 1) (if s.category = academicCat then ac + 1 else ac) em
            have hbeq : ¬ ((s.category == emergingCat) = true) := by
              simp [beq_iff_eq, hcat]
            rw [if_neg hbeq]
            omega

/-- C2: the surviving items are sorted by score descending with ties by
published timestamp descending; the selection is taken greedily from the
front of that order (so it preserves it), and for every input batch the
returned selection has at most 8 items, at most 1 item of the academic
category, and at most 2 items of the emerging-technologies category. -/
theorem selection_quota_enforcement :
    ∀ (f : String → String) (raw : List Story),
      (sortStories (scoreFilter (dedup f raw))).Pairwise storyKeyGe ∧
      (sortStories (scoreFilter (dedup f raw))).Perm (scoreFilter (dedup f raw)) ∧
      (selectionOf f raw).Sublist (sortStories (scoreFilter (dedup f raw))) ∧
      ∀ g : Gen,
        (process f g raw).1 = (selectionOf f raw).map (enrichStory g) ∧
        (process f g raw).1.length ≤ 8 ∧
        (process f g raw).1.countP (fun s => s.category == academicCat) ≤ 1 ∧
        (process f g raw).1.countP (fun s => s.category == emergingCat) ≤ 2 := by
  intro f raw
  refine ⟨List.sorted_insertionSort _ _, List.perm_insertionSort _ _,
    selectLoop_sublist _ 0 0 0, ?_⟩
  intro g
  refine ⟨rfl, ?_, ?_, ?_⟩
  · show ((selectionOf f raw).map (enrichStory g)).length ≤ 8
    rw [List.length_map]
    have := selectLoop_length (sortStories (scoreFilter (dedup f raw))) 0 0 0
    unfold selectionOf
    omega
  · show ((selectionOf f raw).map (enrichStory g)).countP _ ≤ 1
    rw [List.countP_map]
    have hcong : (selectionOf f raw).countP
        ((fun s => s.category == academicCat) ∘ enrichStory g) =
        (selectionOf f raw).countP (fun s => s.category == academicCat) := by
      apply List.countP_congr
      intro s _
      simp only [Function.comp]
      rw [(enrichStory_fields g s).2.2.2.2.2.1]
    rw [hcong]
    exact selectLoop_academic _ 0 0 0
  · show ((selectionOf f raw).map (enrichStory g)).countP _ ≤ 2
    rw [List.countP_map]
    have hcong : (selectionOf f raw).countP
        ((fun s => s.category == emergingCat) ∘ enrichStory g) =
        (selectionOf f raw).countP (fun s => s.category == emergingCat) := by
      apply List.countP_congr
      intro s _
      simp only [Function.comp]
      rw [(enrichStory_fields g s).2.2.2.2.2.1]
    rw [hcong]
    exact selectLoop_emerging _ 0 0 0

/-- C3: the score threshold keeps exactly the items scoring above −10
(an item scoring at most −10 is dropped before sorting and selection, so
every item of the final selection scores above −10); a text with
"ransomware attack" and "kenya" scores 20, the same text with "election"
and no technology-context term scores −30 and is dropped. -/
theorem noise_floor_threshold :
    (∀ (f : String → String) (raw : List Story) (s : Story),
      s ∈ scoreFilter (dedup f raw) ↔ s ∈ (dedup f raw).map tagStory ∧ -10 < s.score) ∧
    (∀ (f : String → String) (g : Gen) (raw : List Story),
      ∀ s ∈ (process f g raw).1, -10 < s.score) ∧
    (tagStory (cleanOf (fun s => s) stRansom)).score = 20 ∧
    (tagStory (cleanOf (fun s => s) stElect)).score = -30 ∧
    scoreFilter (dedup (fun s => s) [stRansom, stElect]) =
      [tagStory (cleanOf (fun s => s) stRansom)] := by
  refine ⟨?_, ?_, by decide, by decide, by decide⟩
  · intro f raw s
    unfold scoreFilter
    rw [List.mem_filter]
    simp only [decide_eq_true_eq]
  · intro f g raw s hs
    have hs' : s ∈ (selectionOf f raw).map (enrichStory g) := hs
    obtain ⟨u, hu, hue⟩ := List.mem_map.mp hs'
    have husel : u ∈ sortStories (scoreFilter (dedup f raw)) :=
      (selectLoop_sublist _ 0 0 0).subset hu
    have humem : u ∈ scoreFilter (dedup f raw) :=
      (List.perm_insertionSort _ _).mem_iff.mp husel
    unfold scoreFilter at humem
    rw [List.mem_filter] at humem
    have hscore : -10 < u.score := by
      have := humem.2
      simpa using this
    rw [← hue]
    rw [(enrichStory_fields g u).2.2.2.2.2.2.2.2]
    exact hscore

/-- Closed instantiation of the noise-floor theorem at a one-item
batch. -/
theorem noise_floor_threshold_witness :
    -10 < (enrichStory Gen.disabled (tagStory (cleanOf (fun s => s) stRansom))).score :=
  noise_floor_threshold.2.1 (fun s => s) Gen.disabled [stRansom]
    (enrichStory Gen.disabled (tagStory (cleanOf (fun s => s) stRansom))) (by decide)

/-- C10: every item of the final selection carries exactly the original
title, link, summary, published, source and category of an input record —
namely the first record of the input batch with its link — so no stage of
the pipeline modifies or removes the collector-produced fields. -/
theorem pipeline_preserves_input_fields :
    ∀ (f : String → String) (g : Gen) (raw : List Story), ∀ s ∈ (process f g raw).1,
      ∃ r, raw.find? (fun x => x.link == s.link) = some r ∧ r ∈ raw ∧
        s.title = r.title ∧ s.link = r.link ∧ s.summary = r.summary ∧
        s.published = r.published ∧ s.source = r.source ∧ s.category = r.category := by
  intro f g raw s hs
  have hs' : s ∈ (selectionOf f raw).map (enrichStory g) := hs
  obtain ⟨u, hu, hue⟩ := List.mem_map.mp hs'
  have husel : u ∈ sortStories (scoreFilter (dedup f raw)) :=
    (selectLoop_sublist _ 0 0 0).subset hu
  have humem : u ∈ scoreFilter (dedup f raw) :=
    (List.perm_insertionSort _ _).mem_iff.mp husel
  unfold scoreFilter at humem
  rw [List.mem_filter] at humem
  obtain ⟨v, hv, hvu⟩ := List.mem_map.mp humem.1
  obtain ⟨_, r, hfind, hvr⟩ := mem_dedupAux f raw [] v hv
  have hlink : s.link = r.link := by
    rw [← hue, (enrichStory_fields g u).2.1, ← hvu, (tagStory_fields v).2.1, hvr]
    rfl
  refine ⟨r, ?_, List.mem_of_find?_eq_some hfind, ?_, hlink, ?_, ?_, ?_, ?_⟩
  · have hsame : (fun x : Story => x.link == s.link) = (fun x : Story => x.link == v.link) := by
      funext x
      rw [← hue, (enrichStory_fields g u).2.1, ← hvu, (tagStory_fields v).2.1]
    rw [hsame]
    exact hfind
  · rw [← hue, (enrichStory_fields g u).1, ← hvu, (tagStory_fields v).1, hvr]
    rfl
  · rw [← hue, (enrichStory_fields g u).2.2.1, ← hvu, (tagStory_fields v).2.2.1, hvr]
    rfl
  · rw [← hue, (enrichStory_fields g u).2.2.2.1, ← hvu, (tagStory_fields v).2.2.2.1, hvr]
    rfl
  · rw [← hue, (enrichStory_fields g u).2.2.2.2.1, ← hvu, (tagStory_fields v).2.2.2.2.1, hvr]
    rfl
  · rw [← hue, (enrichStory_fields g u).2.2.2.2.2.1, ← hvu,
      (tagStory_fields v).2.2.2.2.2.1, hvr]
    rfl

/-- Closed instantiation of the frame theorem at a one-item batch. -/
theorem pipeline_preserves_input_fields_witness :
    ∃ r, [stRansom].find? (fun x => x.link ==
        (enrichStory Gen.disabled (tagStory (cleanOf (fun s => s) stRansom))).link) = some r ∧
      r ∈ [stRansom] ∧
      (enrichStory Gen.disabled (tagStory (cleanOf (fun s => s) stRansom))).title = r.title ∧
      (enrichStory Gen.disabled (tagStory (cleanOf (fun s => s) stRansom))).link = r.link ∧
      (enrichStory Gen.disabled (tagStory (cleanOf (fun s => s) stRansom))).summary = r.summary ∧
      (enrichStory Gen.disabled (tagStory (cleanOf (fun s => s) stRansom))).published = r.published ∧
      (enrichStory Gen.disabled (tagStory (cleanOf (fun s => s) stRansom))).source = r.source ∧
      (enrichStory Gen.disabled (tagStory (cleanOf (fun s => s) stRansom))).category = r.category :=
  pipeline_preserves_input_fields (fun s => s) Gen.disabled [stRansom]
    (enrichStory Gen.disabled (tagStory (cleanOf (fun s => s) stRansom))) (by decide)

/-- C7: with the collaborator unavailable every per-item enrichment field
takes its empty/neutral default and the batch insight is empty; a
collaborator exception is caught and treated as no output (the same
defaults), and enrichment of a selection is per-item, so one item's
outcome never affects another's. -/
theorem enrichment_degrades_gracefully :
    (∀ s : Story, enrichStory Gen.disabled s =
      { s with significance := "Medium", why_it_matters := "", who_should_care := "",
               action := "", kenya_context := "" }) ∧
    (∀ x, generate_briefing_insight Gen.disabled x =
      { executive_summary := "", signals := [] }) ∧
    (∀ (oracle : String → Except Unit String) (prompt : String),
      oracle prompt = Except.error () →
      generate_text (Gen.enabled oracle) prompt = "") ∧
    (∀ (oracle : String → Except Unit String) (s : Story),
      oracle (buildPrompt s s.region) = Except.error () →
      enrichStory (Gen.enabled oracle) s =
        { s with significance := "Medium", why_it_matters := "", who_should_care := "",
                 action := "", kenya_context := "" }) ∧
    (∀ (g : Gen) (l : List Story) (i : Nat),
      (l.map (enrichStory g))[i]? = (l[i]?).map (enrichStory g)) := by
  refine ⟨fun s => rfl, fun x => rfl, ?_, ?_, ?_⟩
  · intro oracle prompt h
    show (match oracle prompt with
      | Except.error _ => ""
      | Except.ok t => pyTrim t) = ""
    rw [h]
  · intro oracle s h
    have hgen : generate_text (Gen.enabled oracle) (buildPrompt s s.region) = "" := by
      show (match oracle (buildPrompt s s.region) with
        | Except.error _ => ""
        | Except.ok t => pyTrim t) = ""
      rw [h]
    have hparse : parseAnalysis "" = ({} : Analysis) := by decide
    show (match analyze_story (Gen.enabled oracle) s s.region with
      | none =>
        { s with significance := "Medium", why_it_matters := "", who_should_care := "",
                 action := "", kenya_context := "" }
      | some a =>
        { s with significance := a.significance, why_it_matters := a.why_it_matters,
                 who_should_care := a.who_should_care, action := a.action,
                 kenya_context := a.kenya_context }) = _
    have hana : analyze_story (Gen.enabled oracle) s s.region = some ({} : Analysis) := by
      unfold analyze_story
      rw [hgen, hparse]
    rw [hana]
  · intro g l i
    exact List.getElem?_map _ _ _

/-- Closed instantiation of the degradation theorem with an
exception-raising collaborator. -/
theorem enrichment_degrades_gracefully_witness :
    generate_text (Gen.enabled (fun _ => Except.error ())) "p" = "" ∧
    enrichStory (Gen.enabled (fun _ => Except.error ())) stGlobal =
      { stGlobal with significance := "Medium", why_it_matters := "", who_should_care := "",
                      action := "", kenya_context := "" } :=
  ⟨enrichment_degrades_gracefully.2.2.1 (fun _ => Except.error ()) "p" rfl,
   enrichment_degrades_gracefully.2.2.2.1 (fun _ => Except.error ()) stGlobal rfl⟩

theorem parseLine_kenya_context (r : Analysis) (raw : String)
    (h : pyStarts (pyTrim raw) "Context:" = false) :
    (parseLine r raw).kenya_context = r.kenya_context := by
  unfold parseLine
  simp only []
  split
  · rfl
  · split
    · rfl
    · split
      · rfl
      · split
        · rfl
        · split
          · rename_i hc
            rw [h] at hc
            exact absurd hc (by simp)
          · rfl

theorem foldl_parseLine_kenya_context :
    ∀ (lines : List String) (r : Analysis),
      (∀ l ∈ lines, pyStarts (pyTrim l) "Context:" = false) →
      (lines.foldl parseLine r).kenya_context = r.kenya_context := by
  intro lines
  induction lines with
  | nil => intro r _; rfl
  | cons l rest ih =>
    intro r h
    rw [List.foldl_cons, ih _ (fun x hx => h x (List.mem_cons_of_mem _ hx)),
      parseLine_kenya_context r l (h l (List.mem_cons_self _ _))]

/-- C8 counterexample: the response parser takes a Context: line into the
result unconditionally — a non-Kenya item whose response carries a
Context: line ends with a non-empty region-context field, so the claim's
"the parser does not take a Context: line into the result" is false. -/
theorem context_parsed_for_non_kenya :
    stGlobal.region ≠ "Kenya" ∧
    (enrichStory (Gen.enabled ctxOracle) stGlobal).kenya_context = "Digital ID rollout" :=
  ⟨by decide, by decide⟩

/-- C8 (amended): a Kenya-context instruction is requested in the prompt
only when the item's region is Kenya, and the parser handles Context:
lines unconditionally — so a non-Kenya item's region-context field is
empty precisely for responses with no Context:-labelled line, and in
particular when the collaborator is disabled. -/
theorem context_requested_only_for_kenya :
    (∀ region : String, region ≠ "Kenya" → kenyaInstruction region = "") ∧
    (∀ resp : String,
      (∀ l ∈ pyLines resp, pyStarts (pyTrim l) "Context:" = false) →
      (parseAnalysis resp).kenya_context = "") ∧
    (∀ (oracle : String → Except Unit String) (s : Story),
      (∀ l ∈ pyLines (generate_text (Gen.enabled oracle) (buildPrompt s s.region)),
        pyStarts (pyTrim l) "Context:" = false) →
      (enrichStory (Gen.enabled oracle) s).kenya_context = "") ∧
    (∀ s : Story, (enrichStory Gen.disabled s).kenya_context = "") := by
  refine ⟨?_, ?_, ?_, fun s => rfl⟩
  · intro region h
    unfold kenyaInstruction
    rw [if_neg h]
  · intro resp h
    exact foldl_parseLine_kenya_context (pyLines resp) {} h
  · intro oracle s h
    show ((pyLines (generate_text (Gen.enabled oracle) (buildPrompt s s.region))).foldl
      parseLine {}).kenya_context = ""
    exact foldl_parseLine_kenya_context _ {} h

/-- Closed instantiation of the amended Context theorem: a non-Kenya
region requests no instruction, and a Context:-free response leaves the
region-context field empty. -/
theorem context_requested_only_for_kenya_witness :
    kenyaInstruction "Global" = "" ∧
    (enrichStory (Gen.enabled (fun _ => Except.ok "Significance: High")) stGlobal).kenya_context
      = "" :=
  ⟨context_requested_only_for_kenya.1 "Global" (by decide),
   context_requested_only_for_kenya.2.2.1 (fun _ => Except.ok "Significance: High") stGlobal
     (by decide)⟩

theorem briefStep_signals (st : BState) (raw : String) :
    (briefStep st raw).signals = st.signals ++ (signalOfLine raw).toList := by
  unfold briefStep signalOfLine
  simp only []
  split
  · simp
  · split
    · simp
    · split
      · split
        · simp
        · split
          · split
            · rename_i heq
              simp [heq]
            · rename_i t d heq
              simp [heq]
          · simp
      · split
        · simp
        · simp

theorem foldl_briefStep_signals :
    ∀ (lines : List String) (st : BState),
      (lines.foldl briefStep st).signals = st.signals ++ lines.filterMap signalOfLine := by
  intro lines
  induction lines with
  | nil => intro st; simp
  | cons l rest ih =>
    intro st
    rw [List.foldl_cons, ih, briefStep_signals]
    cases h : signalOfLine l with
    | none => simp [List.filterMap_cons, h]
    | some sig => simp [List.filterMap_cons, h]

theorem foldl_briefStep_summary :
    ∀ (lines : List String) (st : BState),
      (lines.foldl briefStep st).summary_lines =
        st.summary_lines ++ summaryLinesSpec (st.sec == BSection.summarySec) lines := by
  intro lines
  induction lines with
  | nil => intro st; simp [summaryLinesSpec]
  | cons l rest ih =>
    intro st
    rw [List.foldl_cons, ih]
    have e1 : (BSection.signalSec == BSection.summarySec) = false := rfl
    have e2 : (BSection.summarySec == BSection.summarySec) = true := rfl
    by_cases h1 : pyTrim l = ""
    · simp [briefStep, summaryLinesSpec, h1]
    · by_cases h2 : pyStarts (pyTrim l) "SUMMARY:" = true
      · simp [briefStep, summaryLinesSpec, h1, h2, e2]
      · by_cases h3 : pyStarts (pyTrim l) "SIGNAL" = true
        · simp only [briefStep, summaryLinesSpec, h1, h2, h3, if_false, if_true,
            Bool.false_eq_true, ite_false, ite_true]
          cases hsp : pySplitFirst (pyTrim l) ":" with
          | none => simp [hsp, e1]
          | some p =>
            obtain ⟨a, b⟩ := p
            by_cases hd : pyIn " - " (pyTrim b) = true
            · cases hsp2 : pySplitFirst (pyTrim b) " - " with
              | none => simp [hsp, hd, hsp2, e1]
              | some q => simp [hsp, hd, hsp2, e1]
            · simp [hsp, hd, e1]
        · by_cases h4 : st.sec = BSection.summarySec
          · have hb : (st.sec == BSection.summarySec) = true := beq_iff_eq.mpr h4
            simp [briefStep, summaryLinesSpec, h1, h2, h3, h4, hb]
          · have hb : (st.sec == BSection.summarySec) = false := by
              simp [beq_iff_eq, h4]
            simp [briefStep, summaryLinesSpec, h1, h2, h3, h4, hb]

/-- C9 counterexample: the batch parser has no cap of three signals — a
response with four SIGNAL lines yields four parsed signals, so "extracts
at most three SIGNAL N: lines" is false on the code. -/
theorem briefing_signal_cap_refuted :
    parseBriefing fourSignalResp =
      { executive_summary := "Key themes.",
        signals := [{ title := "A", description := "B" }, { title := "C", description := "D" },
                    { title := "E", description := "F" }, { title := "G", description := "H" }] } ∧
    (parseBriefing fourSignalResp).signals.length = 4 :=
  ⟨by decide, by decide⟩

/-- C9 (amended): batch-level parsing extracts the SUMMARY: block as all
subsequent stripped non-blank non-label lines until the next label,
joined with single spaces (resuming after a repeated SUMMARY: label), and
extracts every SIGNAL line carrying a colon — with no cap of three — each
split on the first " - " occurrence into a title and a description, a
line without that separator yielding the placeholder title Trend and the
whole remainder as description. -/
theorem briefing_parse_uncapped :
    ∀ t : String,
      parseBriefing t =
        { executive_summary := String.intercalate " " (summaryLinesSpec false (pyLines t)),
          signals := (pyLines t).filterMap signalOfLine } := by
  intro t
  unfold parseBriefing
  simp only []
  rw [foldl_briefStep_signals, foldl_briefStep_summary]
  have e0 : (BSection.noneSec == BSection.summarySec) = false := rfl
  simp [e0]

/-- Closed instantiation of the dedup theorem at a two-item batch with a
repeated link. -/
theorem dedup_first_seen_idempotent_witness :
    (∃ r, [stPlain, stPlain].find? (fun x => x.link ==
        (cleanOf (fun s => s) stPlain).link) = some r ∧
      cleanOf (fun s => s) stPlain = cleanOf (fun s => s) r) ∧
    (∃ u ∈ dedup (fun s => s) [stPlain, stPlain], u.link = stPlain.link) :=
  ⟨(dedup_first_seen_idempotent (fun s => s) [stPlain, stPlain]).2.2.1
      (cleanOf (fun s => s) stPlain) (by decide),
   (dedup_first_seen_idempotent (fun s => s) [stPlain, stPlain]).2.2.2.2.2
      stPlain (by decide)⟩

end CyberSecBrief
